import Mathlib

/-!
Verification of the `peak_alloc` allocator shim (`src/lib.rs`).

The program keeps two process-wide `AtomicUsize` counters, `CURRENT` and
`PEAK`, and wraps the system allocator: every successful allocation adds the
requested size to `CURRENT` and raises `PEAK` to the post-increment value,
every deallocation subtracts the size from `CURRENT`.  We model the pair of
counters as a structure of natural numbers, with all `usize` arithmetic
performed modulo `2 ^ 64` exactly as Rust wrapping `fetch_add` / `fetch_sub`
do, memory regions as lists of bytes, and the delegate (system) allocator
result of each shim operation as an `Option` parameter: `none` models a null
pointer returned by `System.alloc`.
-/

/-- Number of values of the native `usize` type (64-bit target): counter
arithmetic in the program wraps modulo this constant. -/
def USIZE : Nat := 2 ^ 64

/-- The two static atomic registers of the program: `CURRENT` (live bytes)
and `PEAK` (high-water mark), both initialized to zero. -/
structure Counters where
  current : Nat
  peak : Nat
deriving Repr, DecidableEq

/-- The zeroed initial state of the two static counters. -/
def Counters.init : Counters := ⟨0, 0⟩

namespace PeakAlloc

/-- Model of `PeakAlloc::current_usage`: relaxed load of `CURRENT`. -/
def current_usage (s : Counters) : Nat := s.current

/-- Model of `PeakAlloc::peak_usage`: relaxed load of `PEAK`. -/
def peak_usage (s : Counters) : Nat := s.peak

/-- Model of `PeakAlloc::add_memory`: `CURRENT.fetch_add(size)` (wrapping,
returning the previous value `prev`) followed by
`PEAK.fetch_max(prev + size)`.  The value handed to `fetch_max` is the
post-increment value of `CURRENT`. -/
def add_memory (s : Counters) (size : Nat) : Counters :=
  let prev := s.current
  let cur := (prev + size) % USIZE
  { current := cur, peak := max s.peak cur }

/-- Model of `PeakAlloc::sub_memory`: `CURRENT.fetch_sub(size)`, which is
wrapping subtraction on `usize`; `PEAK` is not touched. -/
def sub_memory (s : Counters) (size : Nat) : Counters :=
  { s with current := (s.current + (USIZE - size % USIZE)) % USIZE }

/-- Model of `PeakAlloc::reset_peak_usage`:
`PEAK.store(CURRENT.load())`. -/
def reset_peak_usage (s : Counters) : Counters :=
  { s with peak := s.current }

/-- Model of `PeakAlloc::kb` (`x as f32 / 1024.0`), with the `f32`
arithmetic idealized as exact rational arithmetic. -/
def kb (x : Nat) : ℚ := (x : ℚ) / 1024

/-- Model of `PeakAlloc::mb` (`x as f32 / (1024.0 * 1024.0)`), with the
`f32` arithmetic idealized as exact rational arithmetic. -/
def mb (x : Nat) : ℚ := (x : ℚ) / (1024 * 1024)

/-- Model of `PeakAlloc::gb` (`x as f32 / (1024.0 * 1024.0 * 1024.0)`), with
the `f32` arithmetic idealized as exact rational arithmetic. -/
def gb (x : Nat) : ℚ := (x : ℚ) / (1024 * 1024 * 1024)

/-- Model of `PeakAlloc::current_usage_as_kb`. -/
def current_usage_as_kb (s : Counters) : ℚ := kb (current_usage s)

/-- Model of `PeakAlloc::current_usage_as_mb`. -/
def current_usage_as_mb (s : Counters) : ℚ := mb (current_usage s)

/-- Model of `PeakAlloc::current_usage_as_gb`. -/
def current_usage_as_gb (s : Counters) : ℚ := gb (current_usage s)

/-- Model of `PeakAlloc::peak_usage_as_kb`. -/
def peak_usage_as_kb (s : Counters) : ℚ := kb (peak_usage s)

/-- Model of `PeakAlloc::peak_usage_as_mb`. -/
def peak_usage_as_mb (s : Counters) : ℚ := mb (peak_usage s)

/-- Model of `PeakAlloc::peak_usage_as_gb`. -/
def peak_usage_as_gb (s : Counters) : ℚ := gb (peak_usage s)

/-- Model of `std::ptr::write_bytes(dst, val, count)` on a region whose
contents are `dst`: the first `count` bytes are set to `val`. -/
def write_bytes (val : Nat) (count : Nat) (dst : List Nat) : List Nat :=
  List.replicate count val ++ dst.drop count

/-- Model of `std::ptr::copy_nonoverlapping(src, dst, count)` on regions
with contents `src` and `dst`: the first `count` bytes of `dst` are
replaced by the first `count` bytes of `src`. -/
def copy_nonoverlapping (src : List Nat) (count : Nat) (dst : List Nat) : List Nat :=
  src.take count ++ dst.drop count

/-- Model of `GlobalAlloc::alloc` for `PeakAlloc`.  `sysResult` is the
pointer returned by the delegate `System.alloc` (`none` = null).  Returns
the updated counters and the pointer passed through unchanged. -/
def alloc (s : Counters) (size : Nat) (sysResult : Option Nat) :
    Counters × Option Nat :=
  match sysResult with
  | none => (s, none)
  | some p => (add_memory s size, some p)

/-- Model of `GlobalAlloc::dealloc` for `PeakAlloc`: delegate the release to
`System.dealloc`, then `sub_memory(layout.size())`. -/
def dealloc (s : Counters) (size : Nat) : Counters :=
  sub_memory s size

/-- Model of `GlobalAlloc::alloc_zeroed` for `PeakAlloc`.  `sysResult` is
the delegate `System.alloc` outcome: `none` for a null pointer, or the
pointer together with the (arbitrary, uninitialized) contents of the fresh
region.  On success the shim accounts the size and then zero-fills the
region itself with `write_bytes`.  Returns the counters, the returned
pointer, and the contents of the returned region. -/
def alloc_zeroed (s : Counters) (size : Nat)
    (sysResult : Option (Nat × List Nat)) :
    Counters × Option Nat × List Nat :=
  match sysResult with
  | none => (s, none, [])
  | some (p, junk) =>
      (add_memory s size, some p, write_bytes 0 size junk)

/-- Outcome of one `GlobalAlloc::realloc` call: the updated counters, the
returned pointer (`none` = null), whether `System.dealloc` was invoked on
the original region, and the contents of the new region when one was
obtained. -/
structure ReallocResult where
  counters : Counters
  ret : Option Nat
  oldFreed : Bool
  newData : List Nat
deriving Repr, DecidableEq

/-- Model of `GlobalAlloc::realloc` for `PeakAlloc`.  `oldData` is the
contents of the original region, `size` is `layout.size()`, and
`sysResult` is the delegate `System.alloc(new_layout)` outcome (`none` for
null, otherwise the new pointer with its uninitialized contents).  On
success: `add_memory(new_size)`, copy `min(size, new_size)` bytes from the
old region, `System.dealloc` the old region, `sub_memory(size)`, and
return the new pointer. -/
def realloc (s : Counters) (oldData : List Nat) (size newSize : Nat)
    (sysResult : Option (Nat × List Nat)) : ReallocResult :=
  match sysResult with
  | none => { counters := s, ret := none, oldFreed := false, newData := [] }
  | some (p, junk) =>
      let s1 := add_memory s newSize
      let copied := copy_nonoverlapping oldData (min size newSize) junk
      let s2 := sub_memory s1 size
      { counters := s2, ret := some p, oldFreed := true, newData := copied }

end PeakAlloc

/-! ### Basic arithmetic facts about the wrapped counter updates -/

theorem add_memory_exact (s : Counters) (n : Nat) (h : s.current + n < USIZE) :
    (PeakAlloc.add_memory s n).current = s.current + n ∧
      (PeakAlloc.add_memory s n).peak = max s.peak (s.current + n) := by
  unfold PeakAlloc.add_memory
  simp [Nat.mod_eq_of_lt h]

theorem sub_memory_exact (s : Counters) (n : Nat) (hn : n ≤ s.current)
    (hc : s.current < USIZE) :
    (PeakAlloc.sub_memory s n).current = s.current - n ∧
      (PeakAlloc.sub_memory s n).peak = s.peak := by
  unfold PeakAlloc.sub_memory
  have hnu : n < USIZE := lt_of_le_of_lt hn hc
  have h1 : s.current + (USIZE - n % USIZE) = (s.current - n) + USIZE := by
    rw [Nat.mod_eq_of_lt hnu]
    omega
  constructor
  · simp only [h1, Nat.add_mod_right]
    exact Nat.mod_eq_of_lt (by omega)
  · rfl

/-! ### C2: successful-allocation counter update -/

/-- C2: `add_memory(n)` increases `current` by `n` and raises `peak` to the
maximum of the old `peak` and the post-increment value of `current` (the
value including the just-added `n`); hence after `add_memory(n)`, `peak`
equals `max(old peak, old current + n)`.  Stated for counter values within
the native `usize` range, since overflow is declared out of scope by the
specification. -/
theorem C2_add_memory_post_increment (s : Counters) (n : Nat)
    (h : s.current + n < USIZE) :
    PeakAlloc.current_usage (PeakAlloc.add_memory s n) = s.current + n ∧
      PeakAlloc.peak_usage (PeakAlloc.add_memory s n) =
        max s.peak (s.current + n) := by
  have := add_memory_exact s n h
  exact ⟨this.1, this.2⟩

/-- Witness for C2 at the concrete state `current = 1000`, `peak = 1000`
and allocation size `2000`. -/
theorem C2_add_memory_post_increment_witness :
    (1000 : Nat) + 2000 < USIZE ∧
      PeakAlloc.current_usage (PeakAlloc.add_memory ⟨1000, 1000⟩ 2000) = 3000 ∧
        PeakAlloc.peak_usage (PeakAlloc.add_memory ⟨1000, 1000⟩ 2000) = 3000 := by
  refine ⟨by decide, ?_⟩
  have h := C2_add_memory_post_increment ⟨1000, 1000⟩ 2000 (by decide)
  simpa using h

/-! ### C6: deallocation decreases current and leaves peak unchanged -/

/-- C6: for every `dealloc(ptr, size, alignment)` call, the update
`sub_memory(size)` decreases `current` by `size` and leaves `peak`
completely unchanged, so the peak value persists after any release of
memory.  Stated under the caller-trust precondition that the reported size
does not exceed the live byte count (the size matches what was accounted
at allocation time) and that the counter is a `usize` value. -/
theorem C6_dealloc_frame (s : Counters) (size : Nat) (hn : size ≤ s.current)
    (hc : s.current < USIZE) :
    PeakAlloc.current_usage (PeakAlloc.dealloc s size) = s.current - size ∧
      PeakAlloc.peak_usage (PeakAlloc.dealloc s size) = s.peak :=
  sub_memory_exact s size hn hc

/-- Witness for C6: releasing the 4000-byte region of scenario A leaves
`current = 0` and `peak = 4000`. -/
theorem C6_dealloc_frame_witness :
    (4000 : Nat) ≤ 4000 ∧ (4000 : Nat) < USIZE ∧
      PeakAlloc.current_usage (PeakAlloc.dealloc ⟨4000, 4000⟩ 4000) = 0 ∧
        PeakAlloc.peak_usage (PeakAlloc.dealloc ⟨4000, 4000⟩ 4000) = 4000 := by
  refine ⟨le_refl _, by decide, ?_⟩
  have h := C6_dealloc_frame ⟨4000, 4000⟩ 4000 (le_refl _) (by decide)
  simpa using h

/-! ### C7: peak reset sets peak to current, not to zero -/

/-- C7: `reset_peak_usage` sets `peak` to the value `current` holds at that
moment, so immediately afterwards `peak_usage = current_usage`; and if
`current` is `c` after the reset, a subsequent successful allocation of `n`
bytes (within the `usize` range) makes `peak_usage = c + n` rather than the
pre-reset peak. -/
theorem C7_reset_peak (s : Counters) (n : Nat)
    (h : s.current + n < USIZE) :
    PeakAlloc.peak_usage (PeakAlloc.reset_peak_usage s) =
        PeakAlloc.current_usage (PeakAlloc.reset_peak_usage s) ∧
      PeakAlloc.peak_usage
          ((PeakAlloc.alloc (PeakAlloc.reset_peak_usage s) n (some 1)).1) =
        s.current + n := by
  constructor
  · rfl
  · have hh : (PeakAlloc.reset_peak_usage s).current + n < USIZE := h
    have := add_memory_exact (PeakAlloc.reset_peak_usage s) n hh
    simp only [PeakAlloc.alloc, PeakAlloc.peak_usage]
    rw [this.2]
    simp [PeakAlloc.reset_peak_usage]

/-- Witness for C7: after scenario A (`current = 0`, `peak = 4000`), a reset
followed by a 500-byte allocation yields `peak_usage = 500`, not 4000. -/
theorem C7_reset_peak_witness :
    (0 : Nat) + 500 < USIZE ∧
      PeakAlloc.peak_usage (PeakAlloc.reset_peak_usage ⟨0, 4000⟩) =
          PeakAlloc.current_usage (PeakAlloc.reset_peak_usage ⟨0, 4000⟩) ∧
        PeakAlloc.peak_usage
            ((PeakAlloc.alloc (PeakAlloc.reset_peak_usage ⟨0, 4000⟩) 500 (some 1)).1) =
          500 := by
  refine ⟨by decide, ?_⟩
  have h := C7_reset_peak ⟨0, 4000⟩ 500 (by decide)
  simpa using h

/-! ### C10: over-sized deallocation wraps modulo 2 ^ 64 -/

/-- C10: if a deallocation reports a size strictly greater than `current`,
the `fetch_sub` subtraction wraps modulo `2 ^ 64` rather than saturating at
zero or signalling an error: the new `current` is
`current + 2 ^ 64 - size`, and whenever the old peak is below that value a
single over-sized deallocation makes `current_usage` exceed
`peak_usage`. -/
theorem C10_oversized_dealloc_wraps (s : Counters) (size : Nat)
    (hgt : s.current < size) (hs : size < USIZE) :
    PeakAlloc.current_usage (PeakAlloc.dealloc s size) =
        s.current + USIZE - size ∧
      (s.peak < s.current + USIZE - size →
        PeakAlloc.peak_usage (PeakAlloc.dealloc s size) <
          PeakAlloc.current_usage (PeakAlloc.dealloc s size)) := by
  have hmod : size % USIZE = size := Nat.mod_eq_of_lt hs
  have hval : s.current + (USIZE - size % USIZE) = s.current + USIZE - size := by
    rw [hmod]; omega
  have hlt : s.current + USIZE - size < USIZE := by omega
  have hcur :
      PeakAlloc.current_usage (PeakAlloc.dealloc s size) =
        s.current + USIZE - size := by
    unfold PeakAlloc.dealloc PeakAlloc.sub_memory PeakAlloc.current_usage
    rw [hval]
    exact Nat.mod_eq_of_lt hlt
  refine ⟨hcur, fun hp => ?_⟩
  rw [hcur]
  exact hp

/-- Witness for C10: from zeroed counters, a single deallocation of one
byte makes `current_usage` return `2 ^ 64 - 1`, which exceeds the peak. -/
theorem C10_oversized_dealloc_wraps_witness :
    (0 : Nat) < 1 ∧ (1 : Nat) < USIZE ∧
      PeakAlloc.current_usage (PeakAlloc.dealloc Counters.init 1) =
          0 + USIZE - 1 ∧
        PeakAlloc.peak_usage (PeakAlloc.dealloc Counters.init 1) <
          PeakAlloc.current_usage (PeakAlloc.dealloc Counters.init 1) := by
  refine ⟨by decide, by decide, ?_⟩
  have h := C10_oversized_dealloc_wraps Counters.init 1 (by decide) (by decide)
  exact ⟨h.1, h.2 (by decide)⟩

/-! ### C9: unit conversions divide by binary powers of 1024 -/

/-- C9: the unit-scaled accessors return the raw byte count divided by
binary powers of 1024: `current_usage_as_kb = current_usage / 1024`,
`current_usage_as_mb = current_usage / 1024 ^ 2`,
`current_usage_as_gb = current_usage / 1024 ^ 3`, and likewise for the
three `peak_usage_as_*` variants.  The `f32` arithmetic of the program is
idealized here as exact rational arithmetic, which is within the rounding
tolerance the claim allows. -/
theorem C9_unit_conversion (s : Counters) :
    PeakAlloc.current_usage_as_kb s =
        (PeakAlloc.current_usage s : ℚ) / 1024 ∧
      PeakAlloc.current_usage_as_mb s =
        (PeakAlloc.current_usage s : ℚ) / 1024 ^ 2 ∧
      PeakAlloc.current_usage_as_gb s =
        (PeakAlloc.current_usage s : ℚ) / 1024 ^ 3 ∧
      PeakAlloc.peak_usage_as_kb s = (PeakAlloc.peak_usage s : ℚ) / 1024 ∧
      PeakAlloc.peak_usage_as_mb s = (PeakAlloc.peak_usage s : ℚ) / 1024 ^ 2 ∧
      PeakAlloc.peak_usage_as_gb s = (PeakAlloc.peak_usage s : ℚ) / 1024 ^ 3 := by
  refine ⟨rfl, ?_, ?_, rfl, ?_, ?_⟩ <;>
    simp [PeakAlloc.current_usage_as_mb, PeakAlloc.current_usage_as_gb,
      PeakAlloc.peak_usage_as_mb, PeakAlloc.peak_usage_as_gb,
      PeakAlloc.mb, PeakAlloc.gb] <;> norm_num

/-! ### C8: alloc_zeroed zero-fills the returned region itself -/

/-- C8: for every `alloc_zeroed(size, alignment)` call whose delegate
allocation succeeds, every byte of the returned `size`-byte region is zero
when the call returns: the shim calls the delegate's plain `alloc` and then
zero-fills the region itself with `write_bytes` after the counter
accounting, whatever (arbitrary) contents the delegate handed back. -/
theorem C8_alloc_zeroed_zero_fills (s : Counters) (size p : Nat)
    (junk : List Nat) (hjunk : junk.length = size) :
    (PeakAlloc.alloc_zeroed s size (some (p, junk))).2.2 =
        List.replicate size 0 ∧
      (PeakAlloc.alloc_zeroed s size (some (p, junk))).2.1 = some p ∧
      (PeakAlloc.alloc_zeroed s size (some (p, junk))).1 =
        PeakAlloc.add_memory s size := by
  refine ⟨?_, rfl, rfl⟩
  have hdrop : junk.drop size = [] := by
    apply List.drop_eq_nil_of_le
    exact le_of_eq hjunk
  simp [PeakAlloc.alloc_zeroed, PeakAlloc.write_bytes, hdrop]

/-- Witness for C8 at `size = 3` with delegate contents `[7, 8, 9]`. -/
theorem C8_alloc_zeroed_zero_fills_witness :
    ([7, 8, 9] : List Nat).length = 3 ∧
      (PeakAlloc.alloc_zeroed ⟨10, 10⟩ 3 (some (5, [7, 8, 9]))).2.2 =
          List.replicate 3 0 ∧
        (PeakAlloc.alloc_zeroed ⟨10, 10⟩ 3 (some (5, [7, 8, 9]))).2.1 = some 5 ∧
        (PeakAlloc.alloc_zeroed ⟨10, 10⟩ 3 (some (5, [7, 8, 9]))).1 =
          PeakAlloc.add_memory ⟨10, 10⟩ 3 :=
  ⟨by decide, C8_alloc_zeroed_zero_fills ⟨10, 10⟩ 3 5 [7, 8, 9] (by decide)⟩

/-! ### C3: delegate failure is propagated with no counter mutation -/

/-- C3: when the delegate system allocator returns a null pointer, each of
`alloc`, `alloc_zeroed` and `realloc` returns the null result unchanged and
leaves both counters exactly as they were; in the `realloc` case the
original region is additionally neither released nor debited, so a
subsequent `dealloc` of the original region still decreases
`current_usage` by exactly the original size (stated under the
caller-trust precondition that the original size was accounted, i.e. does
not exceed the live byte count). -/
theorem C3_null_is_inert (s : Counters) (size newSize : Nat)
    (oldData : List Nat) (hos : size ≤ s.current) (hc : s.current < USIZE) :
    PeakAlloc.alloc s size none = (s, none) ∧
      PeakAlloc.alloc_zeroed s size none = (s, none, []) ∧
      (PeakAlloc.realloc s oldData size newSize none).counters = s ∧
      (PeakAlloc.realloc s oldData size newSize none).ret = none ∧
      (PeakAlloc.realloc s oldData size newSize none).oldFreed = false ∧
      PeakAlloc.current_usage
          (PeakAlloc.dealloc
            (PeakAlloc.realloc s oldData size newSize none).counters size) =
        s.current - size := by
  refine ⟨rfl, rfl, rfl, rfl, rfl, ?_⟩
  exact (sub_memory_exact s size hos hc).1

/-- Witness for C3 with `current = 4000`, `peak = 4000`, a 4000-byte
original region and a failed growth to 6000 bytes. -/
theorem C3_null_is_inert_witness :
    (4000 : Nat) ≤ 4000 ∧ (4000 : Nat) < USIZE ∧
      (PeakAlloc.alloc ⟨4000, 4000⟩ 4000 none = (⟨4000, 4000⟩, none) ∧
        PeakAlloc.alloc_zeroed ⟨4000, 4000⟩ 4000 none = (⟨4000, 4000⟩, none, []) ∧
        (PeakAlloc.realloc ⟨4000, 4000⟩ [] 4000 6000 none).counters = ⟨4000, 4000⟩ ∧
        (PeakAlloc.realloc ⟨4000, 4000⟩ [] 4000 6000 none).ret = none ∧
        (PeakAlloc.realloc ⟨4000, 4000⟩ [] 4000 6000 none).oldFreed = false ∧
        PeakAlloc.current_usage
            (PeakAlloc.dealloc
              (PeakAlloc.realloc ⟨4000, 4000⟩ [] 4000 6000 none).counters 4000) =
          4000 - 4000) := by
  refine ⟨le_refl _, by decide, ?_⟩
  exact C3_null_is_inert ⟨4000, 4000⟩ 4000 6000 [] (le_refl _) (by decide)

/-! ### C4: successful reallocation -/

/-- C4: for every `realloc(ptr, old layout, new_size)` call whose delegate
allocation succeeds, the shim accounts `add_memory(new_size)`, copies
`min(size, new_size)` bytes from the old region into the new one (the rest
of the new region keeps the delegate's contents), releases the old region
via the delegate allocator, accounts `sub_memory(size)`, and returns the
new pointer; hence `current` becomes `current + new_size - size` and
`peak` becomes `max(peak, current + new_size)`.  Stated for an old region
of exactly `size` bytes, a fresh region of exactly `new_size` bytes, and
counter values within the `usize` range with the old size accounted. -/
theorem C4_realloc_success (s : Counters) (oldData junk : List Nat)
    (p size newSize : Nat) (hold : oldData.length = size)
    (hjunk : junk.length = newSize) (hos : size ≤ s.current)
    (hc : s.current + newSize < USIZE) :
    (PeakAlloc.realloc s oldData size newSize (some (p, junk))).ret = some p ∧
      (PeakAlloc.realloc s oldData size newSize (some (p, junk))).oldFreed = true ∧
      (PeakAlloc.realloc s oldData size newSize (some (p, junk))).newData.length
          = newSize ∧
      (PeakAlloc.realloc s oldData size newSize (some (p, junk))).newData.take
          (min size newSize) = oldData.take (min size newSize) ∧
      (PeakAlloc.realloc s oldData size newSize (some (p, junk))).newData.drop
          (min size newSize) = junk.drop (min size newSize) ∧
      (PeakAlloc.realloc s oldData size newSize (some (p, junk))).counters.current
          = s.current + newSize - size ∧
      (PeakAlloc.realloc s oldData size newSize (some (p, junk))).counters.peak
          = max s.peak (s.current + newSize) := by
  have hadd := add_memory_exact s newSize hc
  have hsub := sub_memory_exact (PeakAlloc.add_memory s newSize) size
    (by rw [hadd.1]; omega) (by rw [hadd.1]; omega)
  have htk : (oldData.take (min size newSize)).length = min size newSize := by
    simp [List.length_take, hold]
  refine ⟨rfl, rfl, ?_, ?_, ?_, ?_, ?_⟩
  · simp [PeakAlloc.realloc, PeakAlloc.copy_nonoverlapping, hold, hjunk]
  · simp only [PeakAlloc.realloc, PeakAlloc.copy_nonoverlapping]
    rw [List.take_append_eq_append_take, htk, Nat.sub_self, List.take_zero,
      List.append_nil, List.take_take, Nat.min_self]
  · simp only [PeakAlloc.realloc, PeakAlloc.copy_nonoverlapping]
    rw [List.drop_append_eq_append_drop, htk, Nat.sub_self, List.drop_zero,
      List.drop_eq_nil_of_le (le_of_eq htk), List.nil_append]
  · show (PeakAlloc.sub_memory (PeakAlloc.add_memory s newSize) size).current = _
    rw [hsub.1, hadd.1]
  · show (PeakAlloc.sub_memory (PeakAlloc.add_memory s newSize) size).peak = _
    rw [hsub.2, hadd.2]

/-- Witness for C4: growing a 3-byte region `[1, 2, 3]` to 5 bytes with
delegate contents `[7, 8, 9, 10, 11]`, starting from
`current = 1000`, `peak = 1000`. -/
theorem C4_realloc_success_witness :
    ([1, 2, 3] : List Nat).length = 3 ∧
      ([7, 8, 9, 10, 11] : List Nat).length = 5 ∧ (3 : Nat) ≤ 1000 ∧
      (1000 : Nat) + 5 < USIZE ∧
      ((PeakAlloc.realloc ⟨1000, 1000⟩ [1, 2, 3] 3 5 (some (4, [7, 8, 9, 10, 11]))).ret
          = some 4 ∧
        (PeakAlloc.realloc ⟨1000, 1000⟩ [1, 2, 3] 3 5
            (some (4, [7, 8, 9, 10, 11]))).oldFreed = true ∧
        (PeakAlloc.realloc ⟨1000, 1000⟩ [1, 2, 3] 3 5
            (some (4, [7, 8, 9, 10, 11]))).newData.length = 5 ∧
        (PeakAlloc.realloc ⟨1000, 1000⟩ [1, 2, 3] 3 5
            (some (4, [7, 8, 9, 10, 11]))).newData.take (min 3 5) =
          ([1, 2, 3] : List Nat).take (min 3 5) ∧
        (PeakAlloc.realloc ⟨1000, 1000⟩ [1, 2, 3] 3 5
            (some (4, [7, 8, 9, 10, 11]))).newData.drop (min 3 5) =
          ([7, 8, 9, 10, 11] : List Nat).drop (min 3 5) ∧
        (PeakAlloc.realloc ⟨1000, 1000⟩ [1, 2, 3] 3 5
            (some (4, [7, 8, 9, 10, 11]))).counters.current = 1000 + 5 - 3 ∧
        (PeakAlloc.realloc ⟨1000, 1000⟩ [1, 2, 3] 3 5
            (some (4, [7, 8, 9, 10, 11]))).counters.peak = max 1000 (1000 + 5)) := by
  refine ⟨by decide, by decide, by decide, by decide, ?_⟩
  exact C4_realloc_success ⟨1000, 1000⟩ [1, 2, 3] [7, 8, 9, 10, 11] 4 3 5
    (by decide) (by decide) (by decide) (by decide)

/-! ### Scripted single-threaded sequences of allocations and deallocations -/

/-- One step of a scripted single-threaded sequence for claim C1: a
successful allocation or a deallocation. -/
inductive AllocEvent where
  | alloc (size : Nat)
  | dealloc (size : Nat)
deriving Repr, DecidableEq

/-- Effect of one event on the counters, through the shim operations:
`alloc` with a non-null delegate result, or `dealloc`. -/
def stepEvent (s : Counters) : AllocEvent → Counters
  | AllocEvent.alloc n => (PeakAlloc.alloc s n (some 1)).1
  | AllocEvent.dealloc n => PeakAlloc.dealloc s n

/-- Counters after running a whole sequence of events. -/
def runEvents : Counters → List AllocEvent → Counters
  | s, [] => s
  | s, e :: es => runEvents (stepEvent s e) es

/-- The counter states attained after each event of the sequence. -/
def statesAfter : Counters → List AllocEvent → List Counters
  | _, [] => []
  | s, e :: es => stepEvent s e :: statesAfter (stepEvent s e) es

/-- Well-formedness of a scripted sequence: every deallocation reports a
size not exceeding the live byte count (as is guaranteed when it supplies
the size of its matching allocation), and the cumulative live count stays
within the native `usize` range (overflow is out of scope by the
specification). -/
def validEvents : Counters → List AllocEvent → Bool
  | _, [] => true
  | s, AllocEvent.alloc n :: es =>
      decide (s.current + n < USIZE) &&
        validEvents (stepEvent s (AllocEvent.alloc n)) es
  | s, AllocEvent.dealloc n :: es =>
      decide (n ≤ s.current) &&
        validEvents (stepEvent s (AllocEvent.dealloc n)) es

theorem foldr_max_shift (l : List Nat) (a b : Nat) :
    l.foldr max (max b a) = max b (l.foldr max a) := by
  induction l with
  | nil => rfl
  | cons x xs ih =>
    simp only [List.foldr_cons, ih]
    exact max_left_comm x b (xs.foldr max a)

theorem init_le_foldr_max (l : List Nat) (a : Nat) : a ≤ l.foldr max a := by
  induction l with
  | nil => exact le_refl a
  | cons x xs ih => exact le_trans ih (le_max_right x (xs.foldr max a))

theorem peak_eq_foldr_max (es : List AllocEvent) :
    ∀ s : Counters, validEvents s es = true → s.current ≤ s.peak →
      s.current < USIZE →
      (runEvents s es).peak =
        ((statesAfter s es).map Counters.current).foldr max s.peak := by
  induction es with
  | nil => intro s _ _ _; rfl
  | cons e es ih =>
    intro s hv hcp hc
    cases e with
    | alloc n =>
      have hv2 : (s.current + n < USIZE) ∧
          validEvents (stepEvent s (AllocEvent.alloc n)) es = true := by
        simpa [validEvents] using hv
      obtain ⟨hlt, hrest⟩ := hv2
      have hadd := add_memory_exact s n hlt
      have h1 : (PeakAlloc.add_memory s n).current ≤
          (PeakAlloc.add_memory s n).peak := by
        rw [hadd.1, hadd.2]; exact le_max_right s.peak (s.current + n)
      have h2 : (PeakAlloc.add_memory s n).current < USIZE := by
        rw [hadd.1]; exact hlt
      have hpk : (PeakAlloc.add_memory s n).peak =
          max (PeakAlloc.add_memory s n).current s.peak := by
        rw [hadd.1, hadd.2]; exact max_comm s.peak (s.current + n)
      have hih := ih (PeakAlloc.add_memory s n) hrest h1 h2
      simp only [runEvents, statesAfter, stepEvent, PeakAlloc.alloc,
        List.map_cons, List.foldr_cons]
      rw [hih, hpk, foldr_max_shift]
    | dealloc n =>
      have hv2 : (n ≤ s.current) ∧
          validEvents (stepEvent s (AllocEvent.dealloc n)) es = true := by
        simpa [validEvents] using hv
      obtain ⟨hle, hrest⟩ := hv2
      have hsub := sub_memory_exact s n hle hc
      have h1 : (PeakAlloc.sub_memory s n).current ≤
          (PeakAlloc.sub_memory s n).peak := by
        rw [hsub.1, hsub.2]; omega
      have h2 : (PeakAlloc.sub_memory s n).current < USIZE := by
        rw [hsub.1]; omega
      have hih := ih (PeakAlloc.sub_memory s n) hrest h1 h2
      simp only [runEvents, statesAfter, stepEvent, PeakAlloc.dealloc,
        List.map_cons, List.foldr_cons]
      rw [hih, hsub.2]
      symm
      apply max_eq_right
      apply le_trans _ (init_le_foldr_max _ s.peak)
      rw [hsub.1]; omega

/-! ### C1: peak equals the maximum current value attained -/

/-- C1: for every finite single-threaded sequence of allocate and
deallocate operations starting from zeroed counters, in which every
deallocation supplies a size covered by the live byte count (as its
matching allocation guarantees), every delegate allocation succeeds, and
the cumulative live count stays within the `usize` range, `peak_usage`
after the sequence equals the maximum value `current_usage` attained at
any point during the sequence (the initial point and the point after each
operation) — not merely its final value. -/
theorem C1_peak_accuracy (es : List AllocEvent)
    (hv : validEvents Counters.init es = true) :
    PeakAlloc.peak_usage (runEvents Counters.init es) =
      ((Counters.init :: statesAfter Counters.init es).map
        PeakAlloc.current_usage).foldr max 0 := by
  have hfun : PeakAlloc.current_usage = Counters.current := rfl
  have h := peak_eq_foldr_max es Counters.init hv (by decide) (by decide)
  have h0 : Counters.init.current = 0 := rfl
  have h1 : Counters.init.peak = 0 := rfl
  rw [h1] at h
  simp only [PeakAlloc.peak_usage, List.map_cons, List.foldr_cons, hfun, h0]
  rw [h]
  exact (Nat.zero_max (((statesAfter Counters.init es).map
    Counters.current).foldr max 0)).symm

/-- Witness for C1: the sequence of the regression test `test_issue_4`
(allocate 4000 bytes, release 4000 bytes): the final peak is 4000, the
maximum current value attained, although the final current value is 0. -/
theorem C1_peak_accuracy_witness :
    validEvents Counters.init
        [AllocEvent.alloc 4000, AllocEvent.dealloc 4000] = true ∧
      PeakAlloc.peak_usage (runEvents Counters.init
          [AllocEvent.alloc 4000, AllocEvent.dealloc 4000]) =
        ((Counters.init :: statesAfter Counters.init
            [AllocEvent.alloc 4000, AllocEvent.dealloc 4000]).map
          PeakAlloc.current_usage).foldr max 0 ∧
      PeakAlloc.peak_usage (runEvents Counters.init
          [AllocEvent.alloc 4000, AllocEvent.dealloc 4000]) = 4000 ∧
      PeakAlloc.current_usage (runEvents Counters.init
          [AllocEvent.alloc 4000, AllocEvent.dealloc 4000]) = 0 :=
  ⟨by decide,
    C1_peak_accuracy [AllocEvent.alloc 4000, AllocEvent.dealloc 4000] (by decide),
    by decide, by decide⟩

/-! ### Sequences over the full operation set, for claim C5 -/

/-- One operation of the full shim interface, with the delegate allocation
outcome (`ok`) recorded for the operations that perform one. -/
inductive ShimOp where
  | allocOp (size : Nat) (ok : Bool)
  | deallocOp (size : Nat)
  | allocZeroedOp (size : Nat) (ok : Bool)
  | reallocOp (oldSize newSize : Nat) (ok : Bool)
  | resetPeakOp
deriving Repr, DecidableEq

/-- Delegate allocation outcome handed to the shim: a pointer with a fresh
region of the requested size on success, a null pointer on failure. -/
def sysOutcome (ok : Bool) (size : Nat) : Option (Nat × List Nat) :=
  if ok then some (1, List.replicate size 0) else none

/-- Effect of one operation on the counters, through the shim
operations. -/
def stepOp (s : Counters) : ShimOp → Counters
  | ShimOp.allocOp n ok => (PeakAlloc.alloc s n (if ok then some 1 else none)).1
  | ShimOp.deallocOp n => PeakAlloc.dealloc s n
  | ShimOp.allocZeroedOp n ok => (PeakAlloc.alloc_zeroed s n (sysOutcome ok n)).1
  | ShimOp.reallocOp o n ok =>
      (PeakAlloc.realloc s (List.replicate o 0) o n (sysOutcome ok n)).counters
  | ShimOp.resetPeakOp => PeakAlloc.reset_peak_usage s

/-- Well-formedness of one operation at a state: deallocations and
reallocations report a size covered by the live byte count (the size
accounted at allocation time), and successful allocations keep the live
count within the `usize` range. -/
def validOp (s : Counters) : ShimOp → Bool
  | ShimOp.allocOp n ok => !ok || decide (s.current + n < USIZE)
  | ShimOp.deallocOp n => decide (n ≤ s.current)
  | ShimOp.allocZeroedOp n ok => !ok || decide (s.current + n < USIZE)
  | ShimOp.reallocOp o n ok =>
      decide (o ≤ s.current) && (!ok || decide (s.current + n < USIZE))
  | ShimOp.resetPeakOp => true

/-- Counters after running a whole sequence of operations. -/
def runOps : Counters → List ShimOp → Counters
  | s, [] => s
  | s, op :: ops => runOps (stepOp s op) ops

/-- The counter states attained after each operation of the sequence. -/
def statesAfterOps : Counters → List ShimOp → List Counters
  | _, [] => []
  | s, op :: ops => stepOp s op :: statesAfterOps (stepOp s op) ops

/-- Well-formedness of a whole sequence of operations. -/
def validOps : Counters → List ShimOp → Bool
  | _, [] => true
  | s, op :: ops => validOp s op && validOps (stepOp s op) ops

theorem stepOp_invariant (s : Counters) (op : ShimOp)
    (hcp : s.current ≤ s.peak) (hc : s.current < USIZE)
    (hv : validOp s op = true) :
    (stepOp s op).current ≤ (stepOp s op).peak ∧
      (stepOp s op).current < USIZE ∧
      (op ≠ ShimOp.resetPeakOp → s.peak ≤ (stepOp s op).peak) := by
  cases op with
  | allocOp n ok =>
    cases ok with
    | false => exact ⟨hcp, hc, fun _ => le_refl s.peak⟩
    | true =>
      have hlt : s.current + n < USIZE := by simpa [validOp] using hv
      have hadd := add_memory_exact s n hlt
      refine ⟨?_, ?_, fun _ => ?_⟩
      · show (PeakAlloc.add_memory s n).current ≤ (PeakAlloc.add_memory s n).peak
        rw [hadd.1, hadd.2]; exact le_max_right s.peak (s.current + n)
      · show (PeakAlloc.add_memory s n).current < USIZE
        rw [hadd.1]; exact hlt
      · show s.peak ≤ (PeakAlloc.add_memory s n).peak
        rw [hadd.2]; exact le_max_left s.peak (s.current + n)
  | deallocOp n =>
    have hle : n ≤ s.current := by simpa [validOp] using hv
    have hsub := sub_memory_exact s n hle hc
    refine ⟨?_, ?_, fun _ => ?_⟩
    · show (PeakAlloc.sub_memory s n).current ≤ (PeakAlloc.sub_memory s n).peak
      rw [hsub.1, hsub.2]; omega
    · show (PeakAlloc.sub_memory s n).current < USIZE
      rw [hsub.1]; omega
    · show s.peak ≤ (PeakAlloc.sub_memory s n).peak
      rw [hsub.2]
  | allocZeroedOp n ok =>
    cases ok with
    | false => exact ⟨hcp, hc, fun _ => le_refl s.peak⟩
    | true =>
      have hlt : s.current + n < USIZE := by simpa [validOp] using hv
      have hadd := add_memory_exact s n hlt
      refine ⟨?_, ?_, fun _ => ?_⟩
      · show (PeakAlloc.add_memory s n).current ≤ (PeakAlloc.add_memory s n).peak
        rw [hadd.1, hadd.2]; exact le_max_right s.peak (s.current + n)
      · show (PeakAlloc.add_memory s n).current < USIZE
        rw [hadd.1]; exact hlt
      · show s.peak ≤ (PeakAlloc.add_memory s n).peak
        rw [hadd.2]; exact le_max_left s.peak (s.current + n)
  | reallocOp o n ok =>
    cases ok with
    | false => exact ⟨hcp, hc, fun _ => le_refl s.peak⟩
    | true =>
      have hv2 : o ≤ s.current ∧ s.current + n < USIZE := by
        simpa [validOp] using hv
      obtain ⟨ho, hlt⟩ := hv2
      have hadd := add_memory_exact s n hlt
      have hsub := sub_memory_exact (PeakAlloc.add_memory s n) o
        (by rw [hadd.1]; omega) (by rw [hadd.1]; omega)
      refine ⟨?_, ?_, fun _ => ?_⟩
      · show (PeakAlloc.sub_memory (PeakAlloc.add_memory s n) o).current ≤
          (PeakAlloc.sub_memory (PeakAlloc.add_memory s n) o).peak
        rw [hsub.1, hsub.2, hadd.1, hadd.2]
        have : s.current + n - o ≤ s.current + n := Nat.sub_le _ _
        exact le_trans this (le_max_right s.peak (s.current + n))
      · show (PeakAlloc.sub_memory (PeakAlloc.add_memory s n) o).current < USIZE
        rw [hsub.1, hadd.1]; omega
      · show s.peak ≤ (PeakAlloc.sub_memory (PeakAlloc.add_memory s n) o).peak
        rw [hsub.2, hadd.2]; exact le_max_left s.peak (s.current + n)
  | resetPeakOp =>
    exact ⟨le_refl s.current, hc, fun hne => absurd rfl hne⟩

theorem runOps_append (l1 l2 : List ShimOp) :
    ∀ s : Counters, runOps s (l1 ++ l2) = runOps (runOps s l1) l2 := by
  induction l1 with
  | nil => intro s; rfl
  | cons op ops ih =>
    intro s
    simp only [List.cons_append, runOps]
    exact ih (stepOp s op)

theorem validOps_append (l1 l2 : List ShimOp) :
    ∀ s : Counters, validOps s (l1 ++ l2) = true →
      validOps s l1 = true ∧ validOps (runOps s l1) l2 = true := by
  induction l1 with
  | nil => intro s h; exact ⟨rfl, h⟩
  | cons op ops ih =>
    intro s h
    simp only [List.cons_append, validOps, Bool.and_eq_true] at h ⊢
    obtain ⟨h1, h2⟩ := h
    obtain ⟨h3, h4⟩ := ih (stepOp s op) h2
    exact ⟨⟨h1, h3⟩, h4⟩

theorem runOps_invariant (ops : List ShimOp) :
    ∀ s : Counters, validOps s ops = true → s.current ≤ s.peak →
      s.current < USIZE →
      (runOps s ops).current ≤ (runOps s ops).peak ∧
        (runOps s ops).current < USIZE := by
  induction ops with
  | nil => intro s _ hcp hc; exact ⟨hcp, hc⟩
  | cons op ops ih =>
    intro s hv hcp hc
    simp only [validOps, Bool.and_eq_true] at hv
    obtain ⟨h1, h2⟩ := hv
    have hstep := stepOp_invariant s op hcp hc h1
    exact ih (stepOp s op) h2 hstep.1 hstep.2.1

theorem statesAfterOps_invariant (ops : List ShimOp) :
    ∀ s : Counters, validOps s ops = true → s.current ≤ s.peak →
      s.current < USIZE →
      ∀ t ∈ statesAfterOps s ops, t.current ≤ t.peak ∧ t.current < USIZE := by
  induction ops with
  | nil => intro s _ _ _ t ht; simp [statesAfterOps] at ht
  | cons op ops ih =>
    intro s hv hcp hc t ht
    simp only [validOps, Bool.and_eq_true] at hv
    obtain ⟨h1, h2⟩ := hv
    have hstep := stepOp_invariant s op hcp hc h1
    simp only [statesAfterOps, List.mem_cons] at ht
    cases ht with
    | inl h => subst h; exact ⟨hstep.1, hstep.2.1⟩
    | inr h => exact ih (stepOp s op) h2 hstep.1 hstep.2.1 t h

/-! ### C5: peak dominates current and is non-decreasing except at reset -/

/-- C5: under the precondition that every deallocation and reallocation
reports the size accounted at allocation time (and the live count stays
within the `usize` range), `peak_usage ≥ current_usage` holds at the start
and after every operation of any sequence of allocate, allocate-zeroed,
deallocate, reallocate and reset operations run from zeroed counters; and
across every operation of the sequence other than `reset_peak_usage`,
`peak_usage` is non-decreasing. -/
theorem C5_peak_invariants (ops : List ShimOp)
    (hv : validOps Counters.init ops = true) :
    (∀ t ∈ Counters.init :: statesAfterOps Counters.init ops,
        PeakAlloc.current_usage t ≤ PeakAlloc.peak_usage t) ∧
      ∀ pre op post, ops = pre ++ op :: post → op ≠ ShimOp.resetPeakOp →
        PeakAlloc.peak_usage (runOps Counters.init pre) ≤
          PeakAlloc.peak_usage (runOps Counters.init (pre ++ [op])) := by
  constructor
  · intro t ht
    simp only [List.mem_cons] at ht
    cases ht with
    | inl h => subst h; exact le_refl 0
    | inr h =>
      exact (statesAfterOps_invariant ops Counters.init hv (by decide)
        (by decide) t h).1
  · intro pre op post heq hne
    subst heq
    obtain ⟨hpre, hrest⟩ := validOps_append pre (op :: post) Counters.init hv
    have hinv := runOps_invariant pre Counters.init hpre (by decide) (by decide)
    have hop : validOp (runOps Counters.init pre) op = true := by
      simp only [validOps, Bool.and_eq_true] at hrest
      exact hrest.1
    have hstep := stepOp_invariant (runOps Counters.init pre) op hinv.1 hinv.2 hop
    have hrun : runOps Counters.init (pre ++ [op]) =
        stepOp (runOps Counters.init pre) op := by
      rw [runOps_append pre [op] Counters.init]
      rfl
    show (runOps Counters.init pre).peak ≤
      (runOps Counters.init (pre ++ [op])).peak
    rw [hrun]
    exact hstep.2.2 hne

/-- Witness for C5 at the two-operation sequence allocate 1000 then
release 1000: the invariant holds at all three states, and the peak does
not decrease across the deallocation. -/
theorem C5_peak_invariants_witness :
    validOps Counters.init
        [ShimOp.allocOp 1000 true, ShimOp.deallocOp 1000] = true ∧
      PeakAlloc.current_usage (Counters.mk 1000 1000) ≤
        PeakAlloc.peak_usage (Counters.mk 1000 1000) ∧
      Counters.mk 1000 1000 ∈ Counters.init :: statesAfterOps Counters.init
          [ShimOp.allocOp 1000 true, ShimOp.deallocOp 1000] ∧
      ShimOp.deallocOp 1000 ≠ ShimOp.resetPeakOp ∧
      PeakAlloc.peak_usage (runOps Counters.init [ShimOp.allocOp 1000 true]) ≤
        PeakAlloc.peak_usage (runOps Counters.init
          ([ShimOp.allocOp 1000 true] ++ [ShimOp.deallocOp 1000])) := by
  have h := C5_peak_invariants
    [ShimOp.allocOp 1000 true, ShimOp.deallocOp 1000] (by decide)
  refine ⟨by decide, ?_, by decide, by decide, ?_⟩
  · exact h.1 (Counters.mk 1000 1000) (by decide)
  · exact h.2 [ShimOp.allocOp 1000 true] (ShimOp.deallocOp 1000) [] rfl
      (by decide)
